import Mathlib

/-!
Verification of the diskhop encrypted object store layer.

This file gives a shallow embedding, in Lean 4, of the parts of the diskhop
source that the specification's claims are about: the AEAD crypto envelope
(`exp/dcrypto`), the IV manager, the GridFS-backed pusher (`mongodop/pusher.go`),
the puller and its random sampling (`mongodop/store.go`), the migrator
(`mongodop/iv_pusher.go`), the revert operation, and the in-memory name index
(`name_index.go`).  Byte strings are `List Nat`, MongoDB ObjectIDs and their
hex server names are `Nat` (hex encoding is a bijection and is elided),
collections are association lists, and Go `nil` pointers and maps are `Option`.
-/

namespace Diskhop

/-- Association-list lookup, modelling a Go map read. -/
def lookupA {α β : Type} [DecidableEq α] : List (α × β) → α → Option β
  | [], _ => none
  | (k, v) :: rest, key => if k = key then some v else lookupA rest key

/-- Association-list insert-or-replace, modelling a Go map write. -/
def insertA {α β : Type} [DecidableEq α] : List (α × β) → α → β → List (α × β)
  | [], key, val => [(key, val)]
  | (k, v) :: rest, key, val =>
    if k = key then (key, val) :: rest else (k, v) :: insertA rest key val

/-! ## Crypto envelope (exp/dcrypto/aead.go)

`AEAD.Seal` obtains a nonce from the IV manager and returns
`Cipher.Seal(nonce, nonce, plaintext, nil)`, i.e. the nonce followed by the
ciphertext-with-tag.  `AEAD.Open` slices off the first `nonceSize` bytes and
hands the rest to `Cipher.Open`.  The underlying `cipher.AEAD` (AES-GCM from
the Go standard library) is modelled abstractly as a pair of functions. -/

/-- Model of Go's `cipher.AEAD` interface: `sealTo nonce pt` is the
ciphertext-with-tag appended to the destination by `Seal`, and
`openFrom nonce ct` is `Open`'s result (`none` = authentication error). -/
structure GoCipherAEAD where
  sealTo : List Nat → List Nat → List Nat
  openFrom : List Nat → List Nat → Option (List Nat)

/-- The constant `DefaultAEADNonceSize` from `aead.go`. -/
def DefaultAEADNonceSize : Nat := 12

/-- The `AEAD` struct from `aead.go`: a cipher plus a configured nonce size
(`0` meaning "use the default"). -/
structure AEAD where
  cipher : GoCipherAEAD
  nonceSize : Nat

/-- The effective nonce size: both `Seal` and `Open` replace a zero
`NonceSize` with `DefaultAEADNonceSize`. -/
def AEAD.effNonceSize (a : AEAD) : Nat :=
  if a.nonceSize = 0 then DefaultAEADNonceSize else a.nonceSize

/-- The persistent registry of used IVs (the `initvectors` collection). -/
structure IVStore where
  used : List (List Nat)

/-- Model of `IVPusher.Exists`: equality lookup in the registry. -/
def ivExists (s : IVStore) (iv : List Nat) : Bool := s.used.contains iv

/-- Model of `IVPusher.Push`: persist a nonce. -/
def ivPush (s : IVStore) (iv : List Nat) : IVStore := ⟨iv :: s.used⟩

/-- Model of `generateInitializationVector` from `exp/dcrypto`: draw `nonceSize` random
bytes, retry (recursively) on collision with a persisted IV, then persist.
`entropy k i` is byte `i` of the `k`-th random draw, and `fuel` bounds the
retry recursion (`none` = ran out of fresh randomness). -/
def generateInitVector (entropy : Nat → Nat → Nat) (nonceSize : Nat) :
    Nat → Nat → IVStore → Option (List Nat × IVStore)
  | 0, _, _ => none
  | fuel + 1, attempt, s =>
    let nonce := (List.range nonceSize).map (entropy attempt)
    if ivExists s nonce then
      generateInitVector entropy nonceSize fuel (attempt + 1) s
    else
      some (nonce, ivPush s nonce)

/-- Model of `AEAD.Seal`: generate a nonce through the IV manager, then return
`Cipher.Seal(nonce, nonce, plaintext, nil)` = `nonce ++ sealTo nonce pt`. -/
def AEAD.sealBytes (a : AEAD) (entropy : Nat → Nat → Nat) (fuel : Nat)
    (s : IVStore) (pt : List Nat) : Option (List Nat × IVStore) :=
  match generateInitVector entropy a.effNonceSize fuel 0 s with
  | none => none
  | some (nonce, s') => some (nonce ++ a.cipher.sealTo nonce pt, s')

/-- Outcome of `AEAD.Open`: Go either panics on the slice expression
`ciphertext[:nonceSize]`, returns the plaintext, or returns a (non-panic)
error from `Cipher.Open`. -/
inductive OpenResult
  | panicked
  | ok (pt : List Nat)
  | err
  deriving DecidableEq, Repr

/-- Model of `AEAD.Open`: `nonce, ciphertext := ciphertext[:n], ciphertext[n:]` followed
by `Cipher.Open(nil, nonce, ciphertext, nil)`.  The slice expression panics
(out-of-range) when the input is shorter than the nonce size. -/
def AEAD.openBytes (a : AEAD) (ct : List Nat) : OpenResult :=
  let n := a.effNonceSize
  if ct.length < n then OpenResult.panicked
  else
    match a.cipher.openFrom (ct.take n) (ct.drop n) with
    | some pt => OpenResult.ok pt
    | none => OpenResult.err

/-- A nonce produced by `generateInitVector` has exactly `nonceSize` bytes
(it is created by `make([]byte, nonceSize)` filled by `io.ReadFull`). -/
theorem generateInitVector_length (entropy : Nat → Nat → Nat) (nonceSize : Nat) :
    ∀ (fuel attempt : Nat) (s : IVStore) (nonce : List Nat) (s' : IVStore),
      generateInitVector entropy nonceSize fuel attempt s = some (nonce, s') →
      nonce.length = nonceSize := by
  intro fuel
  induction fuel with
  | zero => intro attempt s nonce s' h; simp [generateInitVector] at h
  | succ n ih =>
    intro attempt s nonce s' h
    simp only [generateInitVector] at h
    by_cases hc : ivExists s ((List.range nonceSize).map (entropy attempt)) = true
    · rw [if_pos hc] at h
      exact ih (attempt + 1) s nonce s' h
    · rw [if_neg hc] at h
      have h1 := congrArg Prod.fst (Option.some.inj h)
      simp only at h1
      simp [← h1]

/-- A toy instantiation of `cipher.AEAD` used only to witness the crypto
theorems at concrete inputs: the "tag" is 16 fixed bytes appended to the
plaintext, and opening strips it. -/
def toyCipher : GoCipherAEAD where
  sealTo := fun _ pt => pt ++ List.replicate 16 7
  openFrom := fun _ ct =>
    if ct.length < 16 then none else some (ct.take (ct.length - 16))

/-- Claim C1: for every byte string `pt`, opening a sealed payload returns the
original plaintext: whenever the underlying cipher satisfies the AEAD
round-trip property and `AEAD.Seal` succeeds producing `ct`, then
`AEAD.Open ct = pt`.  `Seal` outputs the nonce followed by the
ciphertext-with-tag and `Open` strips the nonce prefix before decryption. -/
theorem C1_open_seal_roundtrip (c : GoCipherAEAD) (ns : Nat)
    (entropy : Nat → Nat → Nat) (fuel : Nat) (s s' : IVStore)
    (pt ct : List Nat)
    (hrt : ∀ (nonce m : List Nat), nonce.length = (AEAD.mk c ns).effNonceSize →
      c.openFrom nonce (c.sealTo nonce m) = some m)
    (hseal : (AEAD.mk c ns).sealBytes entropy fuel s pt = some (ct, s')) :
    (AEAD.mk c ns).openBytes ct = OpenResult.ok pt := by
  unfold AEAD.sealBytes at hseal
  set n := (AEAD.mk c ns).effNonceSize with hn
  cases hgen : generateInitVector entropy n fuel 0 s with
  | none => rw [hgen] at hseal; simp at hseal
  | some p =>
    obtain ⟨nonce, s₂⟩ := p
    rw [hgen] at hseal
    injection hseal with hpair
    have hct : ct = nonce ++ c.sealTo nonce pt := (congrArg Prod.fst hpair).symm
    have hlen : nonce.length = n :=
      generateInitVector_length entropy n fuel 0 s nonce s₂ hgen
    subst hct
    unfold AEAD.openBytes
    rw [← hn]
    have hge : ¬ (nonce ++ c.sealTo nonce pt).length < n := by
      rw [List.length_append, hlen]
      omega
    rw [if_neg hge]
    have htake : (nonce ++ c.sealTo nonce pt).take n = nonce := by
      rw [← hlen]; exact List.take_left nonce _
    have hdrop : (nonce ++ c.sealTo nonce pt).drop n = c.sealTo nonce pt := by
      rw [← hlen]; exact List.drop_left nonce _
    rw [htake, hdrop, hrt nonce pt hlen]

/-- Witness for C1: a concrete seal followed by open recovers `[1, 2, 3]`. -/
theorem C1_open_seal_roundtrip_witness :
    (AEAD.mk toyCipher 0).openBytes
      ((List.range 12).map (fun _ => 0) ++ ([1, 2, 3] ++ List.replicate 16 7)) =
      OpenResult.ok [1, 2, 3] := by
  refine C1_open_seal_roundtrip toyCipher 0 (fun _ _ => 0) 1 ⟨[]⟩
    ⟨[(List.range 12).map (fun _ => 0)]⟩ [1, 2, 3] _ ?_ ?_
  · intro nonce m _
    simp [toyCipher]
  · rfl

/-- Claim C10: for every input shorter than the (default 12-byte) nonce size,
`AEAD.Open` panics from out-of-range slicing instead of returning an error;
an error result is only possible for inputs of length at least the nonce
size. -/
theorem C10_open_short_input_panics (c : GoCipherAEAD) (ct : List Nat) :
    (ct.length < 12 → (AEAD.mk c 0).openBytes ct = OpenResult.panicked) ∧
    ((AEAD.mk c 0).openBytes ct = OpenResult.err → 12 ≤ ct.length) := by
  have hn : (AEAD.mk c 0).effNonceSize = 12 := rfl
  constructor
  · intro h
    unfold AEAD.openBytes
    rw [hn, if_pos h]
  · intro h
    by_contra hlt
    push_neg at hlt
    unfold AEAD.openBytes at h
    rw [hn, if_pos hlt] at h
    exact OpenResult.noConfusion h

/-- Witness for C10: opening a 3-byte input under the default nonce size
panics. -/
theorem C10_open_short_input_panics_witness :
    (AEAD.mk toyCipher 0).openBytes [1, 2, 3] = OpenResult.panicked :=
  (C10_open_short_input_panics toyCipher [1, 2, 3]).1 (by decide)

/-! ## Data model (mongodop)

`GoFile` is the cached `mongo.GridFSFile` (id `0` is the zero ObjectID, a
`none` name is the empty string).  `FileRec` is a document of the
`<bucket>.files` collection; its `metaTags` field is the decrypted view of
the sealed metadata blob (`none` = no metadata).  `Cache` is the loaded
in-memory name index (the `hexName` and `nameDoc` maps), `Server` the
persistent collections. -/

structure GoFile where
  id : Nat
  name : Option Nat
  length : Int
  deriving DecidableEq, Repr

structure FileRec where
  id : Nat
  filename : Nat
  length : Int
  metaTags : Option (List String)
  deriving DecidableEq, Repr

structure Cache where
  hexToName : List (Nat × String)
  nameToDoc : List (String × GoFile)
  nameToMeta : List (String × Option (List String))
  deriving DecidableEq, Repr

structure Server where
  files : List FileRec
  names : List (Nat × String)
  commits : List (String × Nat)
  deriving DecidableEq, Repr

/-! ## Pusher (store/mongodop/pusher.go) -/

/-- Model of `gridfsMetadata.addTags`: append each given tag that is not already in the
current list.  The dedup set is built once from the current tags and is not
extended during the loop, so duplicates inside the argument are all appended.
Returns the new tag list and whether it was extended. -/
def addTagsGo (cur ts : List String) : List String × Bool :=
  ts.foldl
    (fun acc tag => if cur.contains tag then acc else (acc.1 ++ [tag], true))
    (cur, false)

/-- Outcome of `Pusher.pushEncryptedChange`, carrying the (mutated) metadata
tag list: a pure no-op, a metadata-only update, or `errFullPushRequired`. -/
inductive ChangeOutcome
  | noop (idHex : Nat) (newTags : List String)
  | tagUpdate (idHex : Nat) (newTags : List String)
  | fullPushRequired (newTags : List String)
  deriving DecidableEq, Repr

/-- Model of `Pusher.pushEncryptedChange`: `noDataChange` compares the cached record's
length minus 28 with the reader's seek-to-end length; `noTagChange` is the
negation of `meta.addTags(opts.Tags...)` (which mutates the metadata). -/
def pushEncryptedChange (originalFile : GoFile) (metaTags : List String)
    (streamLen : Int) (tags : List String) : ChangeOutcome :=
  let noDataChange : Bool := originalFile.length - 28 == streamLen
  let r := addTagsGo metaTags tags
  let noTagChange : Bool := !r.2
  if noDataChange && noTagChange then ChangeOutcome.noop originalFile.id r.1
  else if noDataChange then ChangeOutcome.tagUpdate originalFile.id r.1
  else ChangeOutcome.fullPushRequired r.1

/-- Server effect of `Pusher.pushEncryptedTagChange`: an `UpdateOne` on the files
collection with filter `{filename: originalFile.Name}`, setting the sealed
metadata (the first matching document is updated). -/
def updateMetadataByFilename : List FileRec → Nat → List String → List FileRec
  | [], _, _ => []
  | f :: rest, fname, newTags =>
    if f.filename = fname then { f with metaTags := some newTags } :: rest
    else f :: updateMetadataByFilename rest fname newTags

/-- Result of one `pushEncrypted` call: the returned hex id (`none` = error),
the new cache and server states, and how many stream uploads and metadata
`UpdateOne` writes were performed. -/
structure PushOutcome where
  result : Option Nat
  cache : Cache
  server : Server
  uploads : Nat
  metaWrites : Nat
  deriving DecidableEq, Repr

/-- The full-upload tail of `Pusher.pushEncrypted` (from `io.ReadAll`
onwards, assuming the upload succeeds): seal the `dataLen` plaintext bytes
(ciphertext length `dataLen + 28`), upload them under filename
`hex(newObjectID)` (the driver assigns the fresh file `_id` `upID`), update
the cached maps — the cached record's `Length` is `int64(len(byts))`, the
plaintext length — delete the old blob by id and the old name-doc by the
prior opaque id when a prior record existed, and insert the new name-doc. -/
def fullUpload (cache : Cache) (server : Server) (name : String) (dataLen : Int)
    (metaTagsF : List String) (originalFile : Option GoFile) (newOID upID : Nat) :
    PushOutcome :=
  let server1 : Server :=
    { server with files := server.files ++ [⟨upID, newOID, dataLen + 28, some metaTagsF⟩] }
  let cache2 : Cache :=
    { cache with
      nameToDoc := insertA cache.nameToDoc name ⟨upID, some newOID, dataLen⟩,
      nameToMeta := insertA cache.nameToMeta name (some metaTagsF),
      hexToName := insertA cache.hexToName newOID name }
  let server2 : Server :=
    match originalFile with
    | some f =>
      if f.id ≠ 0 then
        { server1 with files := server1.files.filter (fun r => r.id != f.id) }
      else server1
    | none => server1
  let server3 : Server :=
    match originalFile with
    | some f =>
      match f.name with
      | some oldOID =>
        { server2 with names := server2.names.filter (fun n => n.1 != oldOID) }
      | none => server2
    | none => server2
  let server4 : Server := { server3 with names := (newOID, name) :: server3.names }
  { result := some newOID, cache := cache2, server := server4,
    uploads := 1, metaWrites := 0 }

/-- Model of `Pusher.pushEncrypted` (assuming the name index is loaded and server
operations succeed; the upload retry loop is modelled separately in
`uploadRetryGo`).  `nameDoc.get` requires the name in both cached maps; when
the cached metadata pointer is non-nil its tag list is zeroed in place
(`meta.Diskhop.Tags = nil`) before `pushEncryptedChange` re-applies
`opts.Tags`; a fresh metadata is built from `opts.Tags` otherwise.
`dataLen` is the reader's seek-to-end length, `newOID` the fresh
`bson.NewObjectID`, `upID` the file `_id` assigned by `UploadFromStream`. -/
def pushEncrypted (cache : Cache) (server : Server) (name : String)
    (dataLen : Int) (tags : List String) (newOID upID : Nat) : PushOutcome :=
  match lookupA cache.nameToDoc name, lookupA cache.nameToMeta name with
  | some originalFile, some (some _) =>
    let cache1 : Cache :=
      { cache with nameToMeta := insertA cache.nameToMeta name (some []) }
    match pushEncryptedChange originalFile [] dataLen tags with
    | ChangeOutcome.noop idHex newTags =>
      { result := some idHex,
        cache := { cache1 with nameToMeta := insertA cache1.nameToMeta name (some newTags) },
        server := server, uploads := 0, metaWrites := 0 }
    | ChangeOutcome.tagUpdate idHex newTags =>
      { result := some idHex,
        cache := { cache1 with nameToMeta := insertA cache1.nameToMeta name (some newTags) },
        server :=
          match originalFile.name with
          | some fn => { server with files := updateMetadataByFilename server.files fn newTags }
          | none => server,
        uploads := 0, metaWrites := 1 }
    | ChangeOutcome.fullPushRequired newTags =>
      fullUpload { cache1 with nameToMeta := insertA cache1.nameToMeta name (some newTags) }
        server name dataLen newTags (some originalFile) newOID upID
  | some originalFile, some none =>
    -- cached metadata pointer is nil: build a fresh one from opts.Tags
    let cache1 : Cache :=
      { cache with nameToMeta := insertA cache.nameToMeta name (some tags) }
    match pushEncryptedChange originalFile tags dataLen tags with
    | ChangeOutcome.noop idHex newTags =>
      { result := some idHex,
        cache := { cache1 with nameToMeta := insertA cache1.nameToMeta name (some newTags) },
        server := server, uploads := 0, metaWrites := 0 }
    | ChangeOutcome.tagUpdate idHex newTags =>
      { result := some idHex,
        cache := { cache1 with nameToMeta := insertA cache1.nameToMeta name (some newTags) },
        server :=
          match originalFile.name with
          | some fn => { server with files := updateMetadataByFilename server.files fn newTags }
          | none => server,
        uploads := 0, metaWrites := 1 }
    | ChangeOutcome.fullPushRequired newTags =>
      fullUpload { cache1 with nameToMeta := insertA cache1.nameToMeta name (some newTags) }
        server name dataLen newTags (some originalFile) newOID upID
  | _, _ =>
    -- name not present in the index: full upload with fresh metadata
    let r := addTagsGo tags tags
    let cache1 : Cache :=
      { cache with nameToMeta := insertA cache.nameToMeta name (some r.1) }
    fullUpload cache1 server name dataLen r.1 none newOID upID

/-- Adding tags to an empty (zeroed) tag list appends the given list verbatim
— the dedup set is built from the empty current list, so nothing is dropped —
and reports an extension exactly when the list is non-empty. -/
theorem addTagsGo_nil (ts : List String) : addTagsGo [] ts = (ts, !ts.isEmpty) := by
  have aux : ∀ (us : List String) (acc : List String × Bool),
      us.foldl
        (fun acc tag => if ([] : List String).contains tag then acc else (acc.1 ++ [tag], true))
        acc = (acc.1 ++ us, acc.2 || !us.isEmpty) := by
    intro us
    induction us with
    | nil => intro acc; simp
    | cons t rest ih =>
      intro acc
      rw [List.foldl_cons, ih]
      simp
  unfold addTagsGo
  rw [aux ts ([], false)]
  simp

/-- Concrete pusher state for the C2/C3 analysis: one file `"a"` whose server
record is 40 ciphertext bytes (28 of AEAD overhead + 12 of plaintext). -/
def fileC2 : GoFile := ⟨7, some 3, 40⟩

def cacheC2 : Cache := ⟨[(3, "a")], [("a", fileC2)], [("a", some ["t1"])]⟩

def serverC2 : Server := ⟨[⟨7, 3, 40, some ["t1"]⟩], [(3, "a")], []⟩

/-- Counterexample to **C2** as stated: pushing `"a"` again with unchanged
data (seek-to-end length 12 = 40 − 28) and `opts.Tags = ["t1"]` — which adds
no new tag to the existing metadata `["t1"]` — is *not* a no-op: because the
engine zeroes the cached tag list before the tag-change check, the push takes
the tag-update path and performs a metadata write (though it does return the
existing id). -/
theorem C2_counterexample :
    (addTagsGo ["t1"] ["t1"]).2 = false ∧
    (pushEncrypted cacheC2 serverC2 "a" 12 ["t1"] 99 98).metaWrites = 1 ∧
    (pushEncrypted cacheC2 serverC2 "a" 12 ["t1"] 99 98).result = some 7 := by
  exact ⟨rfl, rfl, rfl⟩

/-- Claim C2 (amended): a push of an existing name is a no-op — returning the
existing file id with no upload and no metadata write, and leaving the server
unchanged — exactly in the case where the data length is unchanged *and*
`opts.Tags` is empty (the engine zeroes the cached tag list before the
tag-change check, so any non-empty tag list counts as a tag change). -/
theorem C2_noop_requires_empty_tags (cache : Cache) (server : Server)
    (name : String) (f : GoFile) (mt : List String) (dataLen : Int)
    (newOID upID : Nat)
    (hdoc : lookupA cache.nameToDoc name = some f)
    (hmeta : lookupA cache.nameToMeta name = some (some mt))
    (hlen : f.length - 28 = dataLen) :
    (pushEncrypted cache server name dataLen [] newOID upID).result = some f.id ∧
    (pushEncrypted cache server name dataLen [] newOID upID).server = server ∧
    (pushEncrypted cache server name dataLen [] newOID upID).uploads = 0 ∧
    (pushEncrypted cache server name dataLen [] newOID upID).metaWrites = 0 := by
  have h1 : pushEncryptedChange f [] dataLen [] = ChangeOutcome.noop f.id [] := by
    unfold pushEncryptedChange
    simp [addTagsGo, hlen]
  unfold pushEncrypted
  rw [hdoc, hmeta]
  simp [h1]

/-- Witness for C2 (amended): the concrete empty-tag push is a no-op. -/
theorem C2_noop_requires_empty_tags_witness :
    (pushEncrypted cacheC2 serverC2 "a" 12 [] 99 98).result = some fileC2.id ∧
    (pushEncrypted cacheC2 serverC2 "a" 12 [] 99 98).server = serverC2 ∧
    (pushEncrypted cacheC2 serverC2 "a" 12 [] 99 98).uploads = 0 ∧
    (pushEncrypted cacheC2 serverC2 "a" 12 [] 99 98).metaWrites = 0 :=
  C2_noop_requires_empty_tags cacheC2 serverC2 "a" fileC2 ["t1"] 12 99 98
    rfl rfl rfl

/-- The spec's words for C3: the pushed tag list "deduplicated in first-seen
order" (kept separate from the code's `addTagsGo` for comparison). -/
def dedupFirstSeen (ts : List String) : List String :=
  ts.foldl (fun acc t => if acc.contains t then acc else acc ++ [t]) []

def cacheC3 : Cache := ⟨[(3, "a")], [("a", fileC2)], [("a", some ["t1", "t2"])]⟩

def serverC3 : Server := ⟨[⟨7, 3, 40, some ["t1", "t2"]⟩], [(3, "a")], []⟩

/-- Counterexample to **C3** as stated: after a data-unchanged push of
`opts.Tags = ["t3", "t3"]`, the stored tag list is `["t3", "t3"]` — the
duplicate inside `opts.Tags` is kept, because `addTags` builds its dedup set
from the (zeroed) current tag list and never extends it during the loop —
whereas `["t3", "t3"]` deduplicated in first-seen order is `["t3"]`. -/
theorem C3_counterexample :
    (pushEncrypted cacheC3 serverC3 "a" 12 ["t3", "t3"] 99 98).server.files
        = [⟨7, 3, 40, some ["t3", "t3"]⟩] ∧
    dedupFirstSeen ["t3", "t3"] = ["t3"] := by
  exact ⟨rfl, rfl⟩

/-- Claim C3 (amended): for a push of an existing name with unchanged data
length and a non-empty tag list `tags`, the stored metadata is replaced —
not unioned — with `tags` *verbatim*: the engine zeros the cached tag list
and re-applies `opts.Tags`, whose internal duplicates survive.  (An empty
`tags` is a no-op; see `C2_noop_requires_empty_tags`.) -/
theorem C3_tags_replace_verbatim (cache : Cache) (server : Server)
    (name : String) (f : GoFile) (mt : List String) (dataLen : Int)
    (tags : List String) (newOID upID fn : Nat)
    (hdoc : lookupA cache.nameToDoc name = some f)
    (hmeta : lookupA cache.nameToMeta name = some (some mt))
    (hlen : f.length - 28 = dataLen)
    (hne : tags ≠ [])
    (hfn : f.name = some fn) :
    (pushEncrypted cache server name dataLen tags newOID upID).result = some f.id ∧
    (pushEncrypted cache server name dataLen tags newOID upID).server.files
        = updateMetadataByFilename server.files fn tags ∧
    (pushEncrypted cache server name dataLen tags newOID upID).metaWrites = 1 := by
  have hadd : addTagsGo [] tags = (tags, true) := by
    rw [addTagsGo_nil]
    have h2 : tags.isEmpty = false := by
      cases tags with
      | nil => exact absurd rfl hne
      | cons t rest => rfl
    simp [h2]
  have h1 : pushEncryptedChange f [] dataLen tags = ChangeOutcome.tagUpdate f.id tags := by
    unfold pushEncryptedChange
    rw [hadd]
    simp [hlen]
  unfold pushEncrypted
  rw [hdoc, hmeta]
  simp [h1, hfn]

/-- Witness for C3 (amended): pushing `["t3"]` over stored `["t1", "t2"]`
with unchanged data replaces the stored tags with `["t3"]`. -/
theorem C3_tags_replace_verbatim_witness :
    (pushEncrypted cacheC3 serverC3 "a" 12 ["t3"] 99 98).result = some fileC2.id ∧
    (pushEncrypted cacheC3 serverC3 "a" 12 ["t3"] 99 98).server.files
        = updateMetadataByFilename serverC3.files 3 ["t3"] ∧
    (pushEncrypted cacheC3 serverC3 "a" 12 ["t3"] 99 98).metaWrites = 1 :=
  C3_tags_replace_verbatim cacheC3 serverC3 "a" fileC2 ["t1", "t2"] 12 ["t3"]
    99 98 3 rfl rfl rfl (by simp) rfl

/-! ## Puller sampling (store/mongodop/store.go, store/puller.go) -/

/-- The constant `store.DefaultSampleSize`. -/
def DefaultSampleSize : Int := 5

/-- Loop body of `randomSubset`: draw random indices (`randStream step`, each
a uniform draw below `len(files)` in Go; an out-of-range draw is modelled as
`none`) until `size` distinct files are chosen.  `fuel` bounds the loop
(`none` = the random stream never produced enough distinct indices). -/
def randomSubsetGo (files : List FileRec) (size : Int) (randStream : Nat → Nat) :
    Nat → Nat → List FileRec → List Nat → Option (List FileRec)
  | 0, _, chosen, _ =>
    if (chosen.length : Int) < size then none else some chosen
  | fuel + 1, step, chosen, used =>
    if (chosen.length : Int) < size then
      let index := randStream step
      match files[index]? with
      | none => none
      | some f =>
        if used.contains index then
          randomSubsetGo files size randStream fuel (step + 1) chosen used
        else
          randomSubsetGo files size randStream fuel (step + 1) (chosen ++ [f]) (index :: used)
    else some chosen

/-- Model of `randomSubset` from store.go: return all files when `size >= len(files)`,
otherwise choose `size` distinct random elements. -/
def randomSubset (files : List FileRec) (size : Int) (randStream : Nat → Nat)
    (fuel : Nat) : Option (List FileRec) :=
  if size ≥ (files.length : Int) then some files
  else randomSubsetGo files size randStream fuel 0 [] []

/-- Insertion step for the `sort.Slice` call ordering chosen files by
ascending ciphertext length. -/
def insertByLen (f : FileRec) : List FileRec → List FileRec
  | [] => [f]
  | g :: rest =>
    if f.length < g.length then f :: g :: rest else g :: insertByLen f rest

/-- The `sort.Slice(chosen, length <)` step of `findFiles`. -/
def sortByLen : List FileRec → List FileRec
  | [] => []
  | f :: rest => insertByLen f (sortByLen rest)

/-- The effective sample size computed by `findFiles`: an unset (zero)
`opts.SampleSize` becomes `store.DefaultSampleSize`, and in describe-only
mode the sample size becomes the number of matches. -/
def effectiveSample (optSample : Int) (describeOnly : Bool) (numMatches : Nat) : Int :=
  if describeOnly then (numMatches : Int)
  else if optSample = 0 then DefaultSampleSize else optSample

/-- The sampling tail of `findFiles`: take the random subset of the effective
sample size and sort it by ascending ciphertext length. -/
def findFilesSample (gfiles : List FileRec) (optSample : Int)
    (describeOnly : Bool) (randStream : Nat → Nat) (fuel : Nat) :
    Option (List FileRec) :=
  (randomSubset gfiles (effectiveSample optSample describeOnly gfiles.length)
    randStream fuel).map sortByLen

theorem insertByLen_length (f : FileRec) (l : List FileRec) :
    (insertByLen f l).length = l.length + 1 := by
  induction l with
  | nil => rfl
  | cons g rest ih =>
    unfold insertByLen
    by_cases h : f.length < g.length
    · rw [if_pos h]; rfl
    · rw [if_neg h]
      simp [ih]

theorem sortByLen_length (l : List FileRec) : (sortByLen l).length = l.length := by
  induction l with
  | nil => rfl
  | cons f rest ih =>
    unfold sortByLen
    rw [insertByLen_length, ih]
    rfl

/-- When fewer files are requested than exist, a successful `randomSubsetGo`
run returns exactly `size` files (each loop iteration adds at most one file
and the loop stops at `size`). -/
theorem randomSubsetGo_length (files : List FileRec) (size : Int)
    (randStream : Nat → Nat) :
    ∀ (fuel step : Nat) (chosen : List FileRec) (used : List Nat)
      (c : List FileRec),
      (chosen.length : Int) ≤ size →
      randomSubsetGo files size randStream fuel step chosen used = some c →
      (c.length : Int) = size := by
  intro fuel
  induction fuel with
  | zero =>
    intro step chosen used c hle h
    unfold randomSubsetGo at h
    by_cases hlt : (chosen.length : Int) < size
    · rw [if_pos hlt] at h; exact absurd h (by simp)
    · rw [if_neg hlt] at h
      have := Option.some.inj h
      subst this
      omega
  | succ n ih =>
    intro step chosen used c hle h
    unfold randomSubsetGo at h
    by_cases hlt : (chosen.length : Int) < size
    · rw [if_pos hlt] at h
      cases hidx : files[randStream step]? with
      | none => simp [hidx] at h
      | some f =>
        simp only [hidx] at h
        by_cases hused : used.contains (randStream step) = true
        · rw [if_pos hused] at h
          exact ih (step + 1) chosen used c hle h
        · rw [if_neg hused] at h
          refine ih (step + 1) (chosen ++ [f]) (randStream step :: used) c ?_ h
          simp only [List.length_append, List.length_singleton]
          push_cast
          omega
    · rw [if_neg hlt] at h
      have := Option.some.inj h
      subst this
      omega

/-- Claim C5: in describe-only mode the sample is all matches; otherwise, with
the unset sample size defaulting to 5, a sample size at least the number of
matching files selects exactly the matching files, and a smaller sample size
selects exactly that many distinct matching files. -/
theorem C5_sample_size (gfiles : List FileRec) (optSample : Int)
    (randStream : Nat → Nat) (fuel : Nat) (hs : 0 ≤ optSample) :
    (findFilesSample gfiles optSample true randStream fuel
        = some (sortByLen gfiles) ∧
      (sortByLen gfiles).length = gfiles.length) ∧
    ((gfiles.length : Int) ≤ effectiveSample optSample false gfiles.length →
      findFilesSample gfiles optSample false randStream fuel
        = some (sortByLen gfiles)) ∧
    (∀ chosen,
      findFilesSample gfiles optSample false randStream fuel = some chosen →
      effectiveSample optSample false gfiles.length < (gfiles.length : Int) →
      (chosen.length : Int) = effectiveSample optSample false gfiles.length) ∧
    effectiveSample 0 false gfiles.length = 5 := by
  have heffd : effectiveSample optSample false gfiles.length
      = if optSample = 0 then DefaultSampleSize else optSample := rfl
  have heff : 0 ≤ effectiveSample optSample false gfiles.length := by
    rw [heffd]
    by_cases h0 : optSample = 0
    · rw [if_pos h0]; decide
    · rw [if_neg h0]; exact hs
  refine ⟨⟨?_, sortByLen_length gfiles⟩, ?_, ?_, rfl⟩
  · unfold findFilesSample
    have h1 : effectiveSample optSample true gfiles.length = (gfiles.length : Int) := rfl
    rw [h1]
    unfold randomSubset
    rw [if_pos le_rfl]
    rfl
  · intro hge
    unfold findFilesSample randomSubset
    rw [if_pos hge]
    rfl
  · intro chosen hsome hlt
    unfold findFilesSample randomSubset at hsome
    rw [if_neg (by omega)] at hsome
    cases hsub : randomSubsetGo gfiles
        (effectiveSample optSample false gfiles.length) randStream fuel 0 [] [] with
    | none => rw [hsub] at hsome; exact absurd hsome (by simp)
    | some c =>
      rw [hsub] at hsome
      have hcl : sortByLen c = chosen := by simpa using hsome
      have hlen := randomSubsetGo_length gfiles
        (effectiveSample optSample false gfiles.length) randStream fuel 0 [] [] c
        (by simpa using heff) hsub
      rw [← hcl, sortByLen_length]
      exact hlen

/-- Concrete file list for the C5 witness. -/
def gfilesC5 : List FileRec :=
  [⟨1, 1, 30, none⟩, ⟨2, 2, 50, none⟩, ⟨3, 3, 40, none⟩]

/-- Witness for C5: a describe-only pull over three files samples all three. -/
theorem C5_sample_size_witness :
    findFilesSample gfilesC5 0 true (fun k => k) 5 = some (sortByLen gfilesC5) ∧
    (sortByLen gfilesC5).length = gfilesC5.length :=
  (C5_sample_size gfilesC5 0 (fun k => k) 5 (by decide)).1

/-! ## Pull workers and the EOF sentinel (store/mongodop/store.go) -/

/-- A send on the document buffer: a document, a per-document error, or the
`io.EOF` sentinel. -/
inductive PullSend
  | doc
  | errSend
  | eof
  deriving DecidableEq, Repr

/-- The filter front-section of `findFiles`: evaluate the filter over the
candidate names; if the expression is non-empty but nothing matched, return
nil (`none` here), which makes `EncryptedPull` report count 0. -/
def findFilesFilterStep (candidates : List Nat) (p : Nat → Bool)
    (filterNonEmpty : Bool) : Option (List Nat) :=
  let filteredNames := candidates.filter p
  if filteredNames.isEmpty && filterNonEmpty then none else some filteredNames

/-- What a single `encryptedPullWorker` sends on the results channel, given
each file's per-file success flag: one result per file until the first
failure, where the worker sends the error and `return`s, abandoning the
remaining files in the channel. -/
def workerResults : List Bool → List Bool
  | [] => []
  | true :: rest => true :: workerResults rest
  | false :: _ => [false]

/-- The drain loop of `EncryptedPull` with the default single worker: it
receives exactly `count` results, forwarding each (document or error) to the
buffer, then sends the EOF sentinel once.  If the worker produced fewer than
`count` results the receive blocks forever; `none` models that no further
send — EOF included — ever happens. -/
def pullBufferSends (outcomes : List Bool) : Option (List PullSend) :=
  let rs := workerResults outcomes
  if rs.length = outcomes.length then
    some (rs.map (fun b => if b then PullSend.doc else PullSend.errSend)
      ++ [PullSend.eof])
  else none

/-- Model of `Store.EncryptedPull` with one worker (sampling elided): the returned
description count and the sequence of buffer sends; `outcome` is each pulled
file's per-file success. -/
def encryptedPull (candidates : List Nat) (p : Nat → Bool)
    (filterNonEmpty : Bool) (outcome : Nat → Bool) :
    Nat × Option (List PullSend) :=
  match findFilesFilterStep candidates p filterNonEmpty with
  | none => (0, pullBufferSends [])
  | some names => (names.length, pullBufferSends (names.map outcome))

/-- Claim C6 evaluated on the code: a non-empty filter matching nothing does
return count 0 with the EOF sentinel sent (first conjunct), but when a pull
of two files has its first document fail, the single worker returns after
sending the error, the drain loop never receives a second result, and the
EOF sentinel is never sent (second conjunct `= none`), contradicting the
claim that EOF is sent exactly once when document errors flow into the
buffer. -/
theorem C6_eof_evaluation :
    encryptedPull [3] (fun _ => false) true (fun _ => true)
        = (0, some [PullSend.eof]) ∧
    encryptedPull [3, 4] (fun _ => true) false (fun n => n != 3)
        = (2, none) := by
  exact ⟨rfl, rfl⟩

/-! ## Upload retry (store/mongodop/pusher.go, lines 195–231) -/

/-- The `transientErrorCodes` list: code 133, FailedToSatisfyReadPreference. -/
def transientErrorCodes : List Int := [133]

/-- Outcome of one `UploadFromStream` attempt: success with the new file id,
a `mongo.ServerError` carrying its error codes, or any other error. -/
inductive UploadOutcome
  | success (id : Nat)
  | serverErr (codes : List Int)
  | otherErr
  deriving DecidableEq, Repr

def isSuccessOutcome : UploadOutcome → Bool
  | UploadOutcome.success _ => true
  | _ => false

/-- Whether a failed attempt is a server error carrying one of the transient
codes (the inner `for _, code := range transientErrorCodes` check). -/
def isTransientErr : UploadOutcome → Bool
  | UploadOutcome.serverErr codes => transientErrorCodes.any (fun c => codes.contains c)
  | _ => false

/-- The `time.Sleep(1 * time.Second)` at the top of every attempt after the
first, as a list of back-off durations in seconds. -/
def retrySleep (attempt : Nat) : List Nat := if 1 < attempt then [1] else []

/-- The id carried by a successful attempt. -/
def attemptResult : UploadOutcome → Option Nat
  | UploadOutcome.success id => some id
  | _ => none

/-- The upload retry loop of `pushEncrypted` (attempts are 1-based): break on
success, `continue` when the error is a transient server error and attempts
remain (`retryable = attempt < maxRetries`), otherwise return the error.
Returns the uploaded id (`none` = error), the number of the last attempt,
and the sleeps performed.  The `fuel = 0` base case is the loop falling
through without running (only reachable when `maxRetries < 1`), where Go
leaves `id` at the zero ObjectID and `err` nil. -/
def uploadRetryGo (outcomes : Nat → UploadOutcome) (maxRetries : Int) :
    Nat → Nat → Option Nat × Nat × List Nat
  | attempt, 0 => (some 0, attempt - 1, [])
  | attempt, fuel + 1 =>
    if isSuccessOutcome (outcomes attempt) then
      (attemptResult (outcomes attempt), attempt, retrySleep attempt)
    else if isTransientErr (outcomes attempt) && decide ((attempt : Int) < maxRetries) then
      ((uploadRetryGo outcomes maxRetries (attempt + 1) fuel).1,
       (uploadRetryGo outcomes maxRetries (attempt + 1) fuel).2.1,
       retrySleep attempt ++ (uploadRetryGo outcomes maxRetries (attempt + 1) fuel).2.2)
    else (none, attempt, retrySleep attempt)

/-- The retry loop as entered by `pushEncrypted`: a zero
`opts.RetryPolicy.MaxRetries` becomes 1, and the loop runs from attempt 1. -/
def uploadRetry (outcomes : Nat → UploadOutcome) (maxRetriesOpt : Int) :
    Option Nat × Nat × List Nat :=
  uploadRetryGo outcomes (if maxRetriesOpt = 0 then 1 else maxRetriesOpt) 1
    (if maxRetriesOpt = 0 then 1 else maxRetriesOpt).toNat

/-- Loop invariant of the retry loop: the final attempt number lies between
the entry attempt and `maxRetries`; the sleeps are the entry sleep followed
by one 1-second sleep per additional attempt; every attempt before the final
one failed with a transient server error; and if the final attempt was not a
success the loop's result is an error. -/
theorem uploadRetryGo_spec (outcomes : Nat → UploadOutcome) (m : Int) :
    ∀ (fuel attempt : Nat), 1 ≤ attempt → (attempt : Int) ≤ m →
      m - attempt + 1 ≤ (fuel : Int) →
      (attempt ≤ (uploadRetryGo outcomes m attempt fuel).2.1 ∧
        ((uploadRetryGo outcomes m attempt fuel).2.1 : Int) ≤ m) ∧
      (uploadRetryGo outcomes m attempt fuel).2.2
        = retrySleep attempt
            ++ List.replicate ((uploadRetryGo outcomes m attempt fuel).2.1 - attempt) 1 ∧
      (∀ k, attempt ≤ k → k < (uploadRetryGo outcomes m attempt fuel).2.1 →
        isTransientErr (outcomes k) = true) ∧
      (isSuccessOutcome (outcomes (uploadRetryGo outcomes m attempt fuel).2.1) = false →
        (uploadRetryGo outcomes m attempt fuel).1 = none) := by
  intro fuel
  induction fuel with
  | zero =>
    intro attempt h1 h2 h3
    exfalso
    simp only [Nat.cast_zero] at h3
    omega
  | succ n ih =>
    intro attempt h1 h2 h3
    by_cases hsucc : isSuccessOutcome (outcomes attempt) = true
    · have hr : uploadRetryGo outcomes m attempt (n + 1)
          = (attemptResult (outcomes attempt), attempt, retrySleep attempt) := by
        unfold uploadRetryGo
        rw [if_pos hsucc]
      rw [hr]
      refine ⟨⟨le_rfl, h2⟩, by simp, ?_, ?_⟩
      · intro k hk1 hk2
        have hk2n : k < attempt := hk2
        omega
      · intro hfail
        have hfail2 : isSuccessOutcome (outcomes attempt) = false := hfail
        rw [hsucc] at hfail2
        exact absurd hfail2 (by decide)
    · by_cases hcond : (isTransientErr (outcomes attempt)
          && decide ((attempt : Int) < m)) = true
      · have hparts := (Bool.and_eq_true _ _).mp hcond
        have hlt : (attempt : Int) < m := of_decide_eq_true hparts.2
        have htr : isTransientErr (outcomes attempt) = true := hparts.1
        have hih := ih (attempt + 1) (by omega) (by push_cast; omega)
          (by push_cast at h3 ⊢; omega)
        obtain ⟨⟨ha1, ha2⟩, hb, hc, hd⟩ := hih
        have hr : uploadRetryGo outcomes m attempt (n + 1)
            = ((uploadRetryGo outcomes m (attempt + 1) n).1,
               (uploadRetryGo outcomes m (attempt + 1) n).2.1,
               retrySleep attempt
                 ++ (uploadRetryGo outcomes m (attempt + 1) n).2.2) := by
          conv_lhs => unfold uploadRetryGo
          rw [if_neg hsucc, if_pos hcond]
        rw [hr]
        refine ⟨⟨?_, ?_⟩, ?_, ?_, ?_⟩
        · show attempt ≤ (uploadRetryGo outcomes m (attempt + 1) n).2.1
          omega
        · exact ha2
        · show retrySleep attempt ++ (uploadRetryGo outcomes m (attempt + 1) n).2.2
              = retrySleep attempt
                ++ List.replicate ((uploadRetryGo outcomes m (attempt + 1) n).2.1 - attempt) 1
          rw [hb]
          have hsl : retrySleep (attempt + 1) = [1] := by
            unfold retrySleep
            rw [if_pos (by omega)]
          rw [hsl]
          have hn : (uploadRetryGo outcomes m (attempt + 1) n).2.1 - attempt
              = ((uploadRetryGo outcomes m (attempt + 1) n).2.1 - (attempt + 1)) + 1 := by
            omega
          rw [hn, List.replicate_succ]
          rfl
        · intro k hk1 hk2
          have hk2n : k < (uploadRetryGo outcomes m (attempt + 1) n).2.1 := hk2
          rcases Nat.eq_or_lt_of_le hk1 with heq | hlt2
          · exact heq ▸ htr
          · exact hc k (by omega) hk2n
        · intro hfail
          exact hd hfail
      · have hr : uploadRetryGo outcomes m attempt (n + 1)
            = (none, attempt, retrySleep attempt) := by
          unfold uploadRetryGo
          rw [if_neg hsucc, if_neg hcond]
        rw [hr]
        refine ⟨⟨le_rfl, h2⟩, by simp, ?_, fun _ => rfl⟩
        intro k hk1 hk2
        have hk2n : k < attempt := hk2
        omega

/-- Claim C7: a failed push upload attempt is retried only when the error is a
server error carrying transient code 133; the loop makes at most the
effective `opts.RetryPolicy.MaxRetries` total attempts (a zero setting
meaning 1) with a 1-second (≥ 1 s) back-off before every attempt after the
first; and any attempt failing with a non-transient error ends the loop
immediately — it becomes the last attempt and the push returns the error. -/
theorem C7_retry_policy (outcomes : Nat → UploadOutcome) (maxRetriesOpt : Int)
    (hm : 0 ≤ maxRetriesOpt) :
    ((uploadRetry outcomes maxRetriesOpt).2.1 : Int)
        ≤ (if maxRetriesOpt = 0 then 1 else maxRetriesOpt) ∧
    (uploadRetry outcomes maxRetriesOpt).2.2
        = List.replicate ((uploadRetry outcomes maxRetriesOpt).2.1 - 1) 1 ∧
    (∀ k, 1 ≤ k → k < (uploadRetry outcomes maxRetriesOpt).2.1 →
      isTransientErr (outcomes k) = true) ∧
    (∀ k, 1 ≤ k → k ≤ (uploadRetry outcomes maxRetriesOpt).2.1 →
      isSuccessOutcome (outcomes k) = false →
      isTransientErr (outcomes k) = false →
      (uploadRetry outcomes maxRetriesOpt).2.1 = k ∧
      (uploadRetry outcomes maxRetriesOpt).1 = none) := by
  have hm1 : (1 : Int) ≤ (if maxRetriesOpt = 0 then 1 else maxRetriesOpt) := by
    by_cases h0 : maxRetriesOpt = 0
    · rw [if_pos h0]
    · rw [if_neg h0]; omega
  have hr : uploadRetry outcomes maxRetriesOpt
      = uploadRetryGo outcomes (if maxRetriesOpt = 0 then 1 else maxRetriesOpt) 1
          (if maxRetriesOpt = 0 then 1 else maxRetriesOpt).toNat := rfl
  have hfuel : (if maxRetriesOpt = 0 then 1 else maxRetriesOpt) - 1 + 1
      ≤ (((if maxRetriesOpt = 0 then 1 else maxRetriesOpt).toNat : Nat) : Int) := by
    omega
  have hspec := uploadRetryGo_spec outcomes
    (if maxRetriesOpt = 0 then 1 else maxRetriesOpt)
    (if maxRetriesOpt = 0 then 1 else maxRetriesOpt).toNat 1 le_rfl hm1 hfuel
  obtain ⟨⟨ha1, ha2⟩, hb, hc, hd⟩ := hspec
  rw [hr]
  refine ⟨ha2, ?_, hc, ?_⟩
  · rw [hb]
    rfl
  · intro k hk1 hk2 hks hkt
    rcases Nat.eq_or_lt_of_le hk2 with heq | hlt2
    · refine ⟨heq.symm, ?_⟩
      apply hd
      rw [← heq]
      exact hks
    · exact absurd (hc k hk1 hlt2) (by rw [hkt]; simp)

/-- Concrete attempt outcomes for the C7 witness: transient code-133 failures
on the first two attempts, success on the third. -/
def outcomesC7 : Nat → UploadOutcome := fun k =>
  if k < 3 then UploadOutcome.serverErr [133] else UploadOutcome.success 9

/-- Witness for C7: with `maxRetries = 3` the loop sleeps one second before
each of the two retries. -/
theorem C7_retry_policy_witness :
    (uploadRetry outcomesC7 3).2.2
        = List.replicate ((uploadRetry outcomesC7 3).2.1 - 1) 1 :=
  (C7_retry_policy outcomesC7 3 (by decide)).2.1

/-! ## Revert (store/mongodop/store.go, Store.Revert) -/

/-- Model of `Store.Revert`: collect the `FileID`s (opaque server names) of all
commits with the given sha, resolve them to current file `_id`s via the
files collection, delete those blobs, delete the name-docs whose `_id` is
one of the opaque names, and delete the commits.  The cached maps are
returned untouched: `Revert` never writes to the name index. -/
def revertGo (server : Server) (cache : Cache) (sha : String) : Server × Cache :=
  let fileNames := (server.commits.filter (fun c => c.1 == sha)).map (fun c => c.2)
  let fileIDs :=
    (server.files.filter (fun f => fileNames.contains f.filename)).map (fun f => f.id)
  ({ files := server.files.filter (fun f => !(fileIDs.contains f.id)),
     names := server.names.filter (fun nd => !(fileNames.contains nd.1)),
     commits := server.commits.filter (fun c => !(c.1 == sha)) },
   cache)

/-- Inserting a key and looking it up yields the inserted value. -/
theorem lookupA_insertA_self {α β : Type} [DecidableEq α]
    (l : List (α × β)) (k : α) (v : β) :
    lookupA (insertA l k v) k = some v := by
  induction l with
  | nil => simp [insertA, lookupA]
  | cons p rest ih =>
    obtain ⟨a, b⟩ := p
    unfold insertA
    by_cases h : a = k
    · rw [if_pos h]
      simp [lookupA]
    · rw [if_neg h]
      unfold lookupA
      rw [if_neg h]
      exact ih

/-- Concrete state for the C8 counterexample: one live file committed under
sha `"s"`, present in both the persistent collections and the cached maps. -/
def cacheC8 : Cache := ⟨[(3, "a")], [("a", fileC2)], [("a", some [])]⟩

def serverC8 : Server := ⟨[⟨7, 3, 40, some []⟩], [(3, "a")], [("s", 3)]⟩

/-- Counterexample to **C8** as stated: reverting sha `"s"` deletes the file,
its name-doc and the commit from the persistent collections, but the cached
hex-to-name and name-to-record maps still contain the reverted file — the
cached maps do not agree with the persistent state after the revert. -/
theorem C8_counterexample :
    (revertGo serverC8 cacheC8 "s").1.files = [] ∧
    (revertGo serverC8 cacheC8 "s").1.names = [] ∧
    (revertGo serverC8 cacheC8 "s").1.commits = [] ∧
    (revertGo serverC8 cacheC8 "s").2.hexToName = [(3, "a")] ∧
    (revertGo serverC8 cacheC8 "s").2.nameToDoc = [("a", fileC2)] := by
  exact ⟨rfl, rfl, rfl, rfl, rfl⟩

/-- Claim C8 (amended): a full-upload push updates both the persistent
collections and the cached maps (the cached record and the new name-doc and
file record all appear), but revert updates only the persistent server
collections: the cached maps are returned untouched by `Revert`. -/
theorem C8_push_updates_both_revert_leaves_cache (server : Server)
    (cache : Cache) (sha name : String) (dataLen : Int) (tags : List String)
    (newOID upID : Nat)
    (hnew : lookupA cache.nameToDoc name = none) :
    (revertGo server cache sha).2 = cache ∧
    lookupA (pushEncrypted cache server name dataLen tags newOID upID).cache.nameToDoc name
        = some ⟨upID, some newOID, dataLen⟩ ∧
    lookupA (pushEncrypted cache server name dataLen tags newOID upID).cache.hexToName newOID
        = some name ∧
    (newOID, name) ∈ (pushEncrypted cache server name dataLen tags newOID upID).server.names ∧
    (⟨upID, newOID, dataLen + 28, some (addTagsGo tags tags).1⟩ : FileRec)
        ∈ (pushEncrypted cache server name dataLen tags newOID upID).server.files := by
  have hpush : pushEncrypted cache server name dataLen tags newOID upID
      = fullUpload
          { cache with
            nameToMeta := insertA cache.nameToMeta name (some (addTagsGo tags tags).1) }
          server name dataLen (addTagsGo tags tags).1 none newOID upID := by
    unfold pushEncrypted
    rw [hnew]
  rw [hpush]
  refine ⟨rfl, ?_, ?_, ?_, ?_⟩
  · exact lookupA_insertA_self _ _ _
  · exact lookupA_insertA_self _ _ _
  · exact List.mem_cons_self _ _
  · show (⟨upID, newOID, dataLen + 28, some (addTagsGo tags tags).1⟩ : FileRec)
        ∈ server.files ++ [⟨upID, newOID, dataLen + 28, some (addTagsGo tags tags).1⟩]
    simp

/-- Witness for C8 (amended): pushing the fresh name `"b"` updates cache and
server, while the revert of sha `"s"` leaves the cache alone. -/
theorem C8_push_updates_both_revert_leaves_cache_witness :
    (revertGo serverC8 cacheC8 "s").2 = cacheC8 ∧
    lookupA (pushEncrypted cacheC8 serverC8 "b" 12 ["t1"] 99 98).cache.nameToDoc "b"
        = some ⟨98, some 99, 12⟩ ∧
    lookupA (pushEncrypted cacheC8 serverC8 "b" 12 ["t1"] 99 98).cache.hexToName 99
        = some "b" ∧
    (99, "b") ∈ (pushEncrypted cacheC8 serverC8 "b" 12 ["t1"] 99 98).server.names ∧
    (⟨98, 99, 12 + 28, some (addTagsGo ["t1"] ["t1"]).1⟩ : FileRec)
        ∈ (pushEncrypted cacheC8 serverC8 "b" 12 ["t1"] 99 98).server.files :=
  C8_push_updates_both_revert_leaves_cache serverC8 cacheC8 "s" "b" 12 ["t1"]
    99 98 rfl

/-! ## Name index (name_index.go: hexName) -/

/-- The `hexName` struct: a possibly-nil Go map from hex server name to
decrypted plaintext name. -/
structure HexNameMap where
  hexToName : Option (List (Nat × String))
  deriving DecidableEq, Repr

/-- Model of `hexName.get`: a nil map yields `("", false)`; otherwise the Go map read
`hn.hexToName[hex]` returns the zero value `""` for absent keys, and `get`
returns it together with `ok = true` unconditionally. -/
def hexNameGet (hn : HexNameMap) (h : Nat) : String × Bool :=
  match hn.hexToName with
  | none => ("", false)
  | some m => ((lookupA m h).getD "", true)

/-- Model of `loadHexName`: it allocates a non-nil map (`make(map[string]string)`) and
adds one entry per name-doc (sealed-name decryption elided: the entries
carry the decrypted names). -/
def loadHexName (docs : List (Nat × String)) : HexNameMap :=
  ⟨some (docs.foldl (fun m d => insertA m d.1 d.2) [])⟩

/-- How the front of `encryptedPullWorker` handles one file. -/
inductive WorkerStep
  | errIDNotFound
  | panicNilMetadata
  | proceeds (filename : String) (tags : List String)
  deriving DecidableEq, Repr

/-- The name-resolution prefix of `encryptedPullWorker` for one file: look
up the decrypted name via `hexName.get` (sending the "ID not found for file
name" error when `ok` is false); then fetch `(_, gfsMeta, ok)` from
`nameDoc.get` — when the metadata pointer is missing or nil, the local
`gfsMeta` stays nil and the subsequent `gfsMeta.Diskhop` selector
dereferences a nil pointer, a Go runtime panic; otherwise the worker
proceeds to emit a document under the decrypted name with the metadata's
tags. -/
def workerNameStep (hn : HexNameMap) (cache : Cache) (serverFileName : Nat) :
    WorkerStep :=
  let r := hexNameGet hn serverFileName
  if !r.2 then WorkerStep.errIDNotFound
  else
    match lookupA cache.nameToDoc r.1, lookupA cache.nameToMeta r.1 with
    | some _, some (some tags) => WorkerStep.proceeds r.1 tags
    | _, _ => WorkerStep.panicNilMetadata

/-- Model of `loadNameDoc` (part_012:100-133): scan the files collection in
cursor order; for each record, resolve its server name through `hexName.get`
(returning the "ID not found" error — `none` here — when `ok` is false,
which cannot happen once `hexName` is loaded), decrypt its metadata
(`f.metaTags` is the decrypted view; the decryption error is discarded), and
`nameDoc.add` the record under the resolved plaintext name.  A file whose
server name has no name-doc is therefore cached under the empty string
together with its decrypted metadata; later records overwrite earlier ones
with the same resolved name. -/
def loadNameDocFrom (hn : HexNameMap) :
    List FileRec → List (String × GoFile) → List (String × Option (List String)) →
    Option (List (String × GoFile) × List (String × Option (List String)))
  | [], nd, nm => some (nd, nm)
  | f :: rest, nd, nm =>
    let r := hexNameGet hn f.filename
    if !r.2 then none
    else
      loadNameDocFrom hn rest
        (insertA nd r.1 ⟨f.id, some f.filename, f.length⟩)
        (insertA nm r.1 f.metaTags)

/-- With a loaded (non-nil) `hexName` map, `loadNameDoc` never takes its "ID
not found" error return. -/
theorem loadNameDocFrom_loaded (m : List (Nat × String)) :
    ∀ (files : List FileRec) (nd : List (String × GoFile))
      (nm : List (String × Option (List String))),
      ∃ nd' nm', loadNameDocFrom ⟨some m⟩ files nd nm = some (nd', nm') := by
  intro files
  induction files with
  | nil => intro nd nm; exact ⟨nd, nm, rfl⟩
  | cons g rest ih =>
    intro nd nm
    exact ih _ _

/-- After loading the nameDoc maps from a files collection whose last record
is `f`, the name `f` resolved to maps to `f`'s cached record and decrypted
metadata (the cursor order makes the last record win). -/
theorem loadNameDocFrom_append_last (m : List (Nat × String)) (f : FileRec) :
    ∀ (files : List FileRec) (nd : List (String × GoFile))
      (nm : List (String × Option (List String)))
      (nd' : List (String × GoFile))
      (nm' : List (String × Option (List String))),
      loadNameDocFrom ⟨some m⟩ (files ++ [f]) nd nm = some (nd', nm') →
      lookupA nd' ((lookupA m f.filename).getD "")
          = some ⟨f.id, some f.filename, f.length⟩ ∧
      lookupA nm' ((lookupA m f.filename).getD "") = some f.metaTags := by
  intro files
  induction files with
  | nil =>
    intro nd nm nd' nm' h
    have h2 := Option.some.inj h
    have hnd : nd' = insertA nd ((lookupA m f.filename).getD "")
        ⟨f.id, some f.filename, f.length⟩ := (congrArg Prod.fst h2).symm
    have hnm : nm' = insertA nm ((lookupA m f.filename).getD "") f.metaTags :=
      (congrArg Prod.snd h2).symm
    rw [hnd, hnm]
    exact ⟨lookupA_insertA_self _ _ _, lookupA_insertA_self _ _ _⟩
  | cons g rest ih =>
    intro nd nm nd' nm' h
    exact ih _ _ _ _ h

/-- Claim C9: once the name index is loaded, `hexName.get` returns
`ok = true` for every queried hex string — the empty string for keys absent
from the map — so the pull worker's "ID not found for file name" error
branch is unreachable; and a file whose server name has no name-doc was
cached by `loadNameDoc` under the empty plaintext name together with its
decrypted metadata, so the worker emits it under the empty filename rather
than reporting an error. -/
theorem C9_no_name_doc_emitted_under_empty_name (m : List (Nat × String))
    (files : List FileRec) (f : FileRec) (tags : List String)
    (habs : lookupA m f.filename = none)
    (hmeta : f.metaTags = some tags) :
    (∀ h, (hexNameGet ⟨some m⟩ h).2 = true) ∧
    (hexNameGet ⟨some m⟩ f.filename).1 = "" ∧
    (∀ (cache : Cache) (fn : Nat),
      workerNameStep ⟨some m⟩ cache fn ≠ WorkerStep.errIDNotFound) ∧
    (∀ (nd : List (String × GoFile)) (nm : List (String × Option (List String))),
      loadNameDocFrom ⟨some m⟩ (files ++ [f]) nd nm ≠ none) ∧
    (∀ (nd : List (String × GoFile)) (nm : List (String × Option (List String)))
      (nd' : List (String × GoFile)) (nm' : List (String × Option (List String))),
      loadNameDocFrom ⟨some m⟩ (files ++ [f]) nd nm = some (nd', nm') →
      workerNameStep ⟨some m⟩ ⟨m, nd', nm'⟩ f.filename
        = WorkerStep.proceeds "" tags) := by
  refine ⟨fun h => rfl, ?_, ?_, ?_, ?_⟩
  · simp [hexNameGet, habs]
  · intro cache fn
    unfold workerNameStep hexNameGet
    cases hd : lookupA cache.nameToDoc ((lookupA m fn).getD "") with
    | none => simp [hd]
    | some g =>
      cases hm2 : lookupA cache.nameToMeta ((lookupA m fn).getD "") with
      | none => simp [hd, hm2]
      | some mv =>
        cases mv with
        | none => simp [hd, hm2]
        | some ts => simp [hd, hm2]
  · intro nd nm
    obtain ⟨nd', nm', h⟩ := loadNameDocFrom_loaded m (files ++ [f]) nd nm
    simp [h]
  · intro nd nm nd' nm' hload
    obtain ⟨hnd, hnm⟩ := loadNameDocFrom_append_last m f files nd nm nd' nm' hload
    rw [habs] at hnd hnm
    rw [hmeta] at hnm
    simp only [Option.getD_none] at hnd hnm
    simp [workerNameStep, hexNameGet, habs, hnd, hnm]

/-- Concrete no-name-doc file for the C9 witness: server name hex 5 is
absent from the loaded hex-to-name map. -/
def fileC9 : FileRec := ⟨7, 5, 40, some ["t1"]⟩

/-- Witness for C9: after loading the index over a one-file collection whose
record has no name-doc, the worker emits that file under the empty filename
with its decrypted tags. -/
theorem C9_no_name_doc_emitted_under_empty_name_witness :
    workerNameStep ⟨some [(3, "a")]⟩
        ⟨[(3, "a")], [("", ⟨7, some 5, 40⟩)], [("", some ["t1"])]⟩ 5
      = WorkerStep.proceeds "" ["t1"] :=
  (C9_no_name_doc_emitted_under_empty_name [(3, "a")] [] fileC9 ["t1"]
      rfl rfl).2.2.2.2
    [] [] [("", ⟨7, some 5, 40⟩)] [("", some ["t1"])] rfl

/-! ## Migrator (store/mongodop/iv_pusher.go) -/

/-- The two GridFS buckets a migration moves a file between. -/
structure Buckets where
  srcFiles : List FileRec
  targetFiles : List FileRec
  deriving DecidableEq, Repr

/-- Merge step: `$merge ... whenMatched: "merge"` of one file document (its chunk stream
moves with it and is modelled jointly) into the target bucket: replace the
record with the matching `_id`, or insert.  `$merge` never removes source
documents. -/
def mergeIntoTarget (target : List FileRec) (rec : FileRec) : List FileRec :=
  if target.any (fun t => t.id == rec.id) then
    target.map (fun t => if t.id == rec.id then rec else t)
  else target ++ [rec]

/-- Model of `migrateByFileID`: the `$match _id` / `$merge` aggregation pipelines on
the source bucket's files and chunks collections. -/
def migrateByFileID (b : Buckets) (id : Nat) : Buckets :=
  match b.srcFiles.find? (fun f => f.id == id) with
  | some rec => { b with targetFiles := mergeIntoTarget b.targetFiles rec }
  | none => b

inductive MigrateResult
  | ok (b : Buckets)
  | err
  deriving DecidableEq, Repr

def migrateSrcFiles : MigrateResult → Option (List FileRec)
  | MigrateResult.ok b => some b.srcFiles
  | MigrateResult.err => none

/-- Model of `Migrator.Push` (server operations succeed; progress reporting elided).
With a non-empty filter, every match is merged into the target by id and the
function returns — without deleting anything from the source.  With a name,
the file is resolved through the index; an unchanged file takes the
server-side merge fast path, otherwise the ciphertext is downloaded and
re-uploaded to the target with merged tags; in both name paths the source
file is then deleted.  A missing cached metadata pointer is mapped to `err`
(in Go it would panic inside `encryptGridFSMetadata`). -/
def migratorPush (b : Buckets) (cache : Cache) (name : String)
    (filterNonEmpty : Bool) (matchedIDs : List Nat) (streamLen : Int)
    (tags : List String) (upFreshID : Nat) : MigrateResult :=
  if filterNonEmpty then
    MigrateResult.ok (matchedIDs.foldl migrateByFileID b)
  else
    match lookupA cache.nameToDoc name, lookupA cache.nameToMeta name with
    | some doc, some (some mt) =>
      let noDataChange : Bool := doc.length - 28 == streamLen
      let r1 := addTagsGo mt tags
      if noDataChange && !r1.2 then
        let b1 := migrateByFileID b doc.id
        MigrateResult.ok
          { b1 with srcFiles := b1.srcFiles.filter (fun f => !(f.id == doc.id)) }
      else
        let mergedTags := (addTagsGo r1.1 tags).1
        let b1 : Buckets :=
          { b with targetFiles := b.targetFiles
              ++ [⟨upFreshID, doc.name.getD 0, doc.length, some mergedTags⟩] }
        MigrateResult.ok
          { b1 with srcFiles := b1.srcFiles.filter (fun f => !(f.id == doc.id)) }
    | _, _ => MigrateResult.err

/-- The `migrateByFileID` step only writes to the target bucket. -/
theorem migrateByFileID_srcFiles (b : Buckets) (id : Nat) :
    (migrateByFileID b id).srcFiles = b.srcFiles := by
  unfold migrateByFileID
  cases hf : b.srcFiles.find? (fun f => f.id == id) with
  | none => rfl
  | some rec => rfl

/-- Source bucket with one file, for the C4 counterexample. -/
def bucketsC4 : Buckets := ⟨[⟨7, 3, 40, some []⟩], []⟩

/-- Counterexample to **C4** as stated: a successful filter-form migrate
merges the matched file (id 7) into the target bucket, yet the source bucket
still contains it afterwards — the filter path returns without deleting the
source files. -/
theorem C4_counterexample :
    migratorPush bucketsC4 cacheC2 "" true [7] 12 [] 99
        = MigrateResult.ok ⟨[⟨7, 3, 40, some []⟩], [⟨7, 3, 40, some []⟩]⟩ ∧
    (⟨7, 3, 40, some []⟩ : FileRec)
        ∈ ([⟨7, 3, 40, some []⟩] : List FileRec) := by
  exact ⟨rfl, by simp⟩

/-- Claim C4 (amended): in the name-based form, both the fast (server-side
merge) path and the slow (download/re-upload) path delete the source file
after the successful target write: the resulting source bucket is the
original with every record of the file's id removed.  The filter form
merges its matches but performs no source deletion (see
`C4_counterexample`). -/
theorem C4_name_paths_delete_source (b : Buckets) (cache : Cache)
    (name : String) (doc : GoFile) (mt : List String) (streamLen : Int)
    (tags : List String) (upFreshID : Nat)
    (hdoc : lookupA cache.nameToDoc name = some doc)
    (hmeta : lookupA cache.nameToMeta name = some (some mt)) :
    migrateSrcFiles (migratorPush b cache name false [] streamLen tags upFreshID)
      = some (b.srcFiles.filter (fun f => !(f.id == doc.id))) := by
  have hfalse : ¬ (false = true) := by decide
  unfold migratorPush
  rw [if_neg hfalse]
  simp only [hdoc, hmeta]
  by_cases hcond : ((doc.length - 28 == streamLen) && !(addTagsGo mt tags).2) = true
  · rw [if_pos hcond]
    show some ((migrateByFileID b doc.id).srcFiles.filter (fun f => !(f.id == doc.id)))
        = some (b.srcFiles.filter (fun f => !(f.id == doc.id)))
    rw [migrateByFileID_srcFiles]
  · rw [if_neg hcond]
    rfl

/-- Witness for C4 (amended): migrating `"a"` by name removes id 7 from the
source bucket. -/
theorem C4_name_paths_delete_source_witness :
    migrateSrcFiles (migratorPush bucketsC4 cacheC2 "a" false [] 12 ["t2"] 99)
      = some (bucketsC4.srcFiles.filter (fun f => !(f.id == fileC2.id))) :=
  C4_name_paths_delete_source bucketsC4 cacheC2 "a" fileC2 ["t1"] 12 ["t2"] 99
    rfl rfl

end Diskhop
